import Mathlib

/-!
A shallow embedding of the mixture-model orchestration module
(`kde_ebm/mixture_model/utils.py`).

Measurements are rationals; a missing measurement (numpy NaN) is `none`.
A numpy 2-d array is a list of rows together with the column count of
its shape (`ncols`), because row filtering keeps the column count even
when no row survives.  Python exceptions (TypeError when indexing
`None`, IndexError when indexing a list out of range) are modelled by
`Option`: a `none` result is a raised exception, which aborts the whole
per-biomarker loop, exactly as a Python exception would.

The mixture-model classes (`Gaussian`, `ParametricMM`, `KDEMM`) live in
sibling modules that this orchestration code uses opaquely; they enter
the embedding as parameters: a parametric fit is an arbitrary function
of the measurement and label arrays, a kernel-density fit is an
arbitrary function of the constructor hyperparameters (alpha, beta) and
of the arguments of the fit call, and a fitted model consumed by
`get_prob_mat` is its elementwise `probability` function.
-/

namespace KdeEbm

/-- One cell of the measurement table; `none` models numpy NaN. -/
abbrev Cell : Type := Option ℚ

/-- A numpy 2-d measurement array: its rows plus the column count of its shape. -/
structure NDMatrix : Type where
  ncols : ℕ
  rows : List (List Cell)
deriving DecidableEq

/-- Column `i` of the table, `X[:, i]`, one cell per patient row. -/
def colOf (X : NDMatrix) (i : ℕ) : List Cell :=
  X.rows.map (fun r => r.getD i none)

/-- Cell of patient `p`, biomarker `b`: `X[p, b]`. -/
def cellAt (X : NDMatrix) (p b : ℕ) : Cell :=
  (X.rows.getD p []).getD b none

/-- Left-to-right fallible map: the loop body is run per biomarker index and a
raised exception (`none`) aborts the whole loop. -/
def mapOpt {α β : Type} (f : α → Option β) : List α → Option (List β)
  | [] => some []
  | x :: xs => (f x).bind (fun b => (mapOpt f xs).map (fun bs => b :: bs))

/-- The fancy-index scatter `prob_mat[nan_mask, i, 0] = probs` together with
`prob_mat[~nan_mask, i, 0] = 0.5`: rows with a present value receive the next
entry of `probs`, rows with a missing value receive the fallback.  By
construction `probs` always has exactly one entry per present cell, so the
shape-mismatch branch is never reached. -/
def scatter (col : List Cell) (probs : List ℚ) (fb : ℚ) : List ℚ :=
  match col, probs with
  | [], _ => []
  | none :: cs, ps => fb :: scatter cs ps fb
  | some _ :: cs, [] => scatter cs [] fb
  | some _ :: cs, p :: ps => p :: scatter cs ps fb

/-- One iteration of the `get_prob_mat` column loop, producing slot 0 of column
`i`: `probs = mixture_models[i].probability(X[nan_mask, i])` applied to the
non-missing values in original row order, scattered back over the column with
fallback `0.5` at missing rows. -/
def colProbs (f : ℚ → ℚ) (col : List Cell) : List ℚ :=
  scatter col ((col.filterMap id).map f) (1/2)

/-- `get_prob_mat(X, mixture_models)`: the patients x biomarkers x 2 tensor.
Slot 0 of column `i` comes from `colProbs` with `mixture_models[i]`
(an out-of-range model index raises); the final statement
`prob_mat[:, :, 1] = 1 - prob_mat[:, :, 0]` makes slot 1 the exact
complement of slot 0.  The tensor is materialised row-major as one
`(slot0, slot1)` pair per patient and biomarker. -/
def get_prob_mat (X : NDMatrix) (models : List (ℚ → ℚ)) :
    Option (List (List (ℚ × ℚ))) :=
  (mapOpt (fun i => models[i]?.map (fun f => colProbs f (colOf X i)))
      (List.range X.ncols)).map
    (fun cols0 =>
      (List.range X.rows.length).map (fun p =>
        (List.range X.ncols).map (fun b =>
          let s0 := (cols0.getD b []).getD p 0
          (s0, 1 - s0))))

/-- `msk = np.where(y < 2)[0]; X = X[msk]; y = y[msk]`: keep the rows whose
label is 0 or 1, as aligned (row, label) pairs. -/
def keepRows (X : NDMatrix) (y : List ℕ) : List (List Cell × ℕ) :=
  (X.rows.zip y).filter (fun p => p.2 < 2)

/-- The per-biomarker arrays `bio_y = y[~np.isnan(X[:, i])]` and
`bio_X = X[~np.isnan(X[:, i]), i]`, kept as aligned (value, label) pairs. -/
def bioPairs (rows : List (List Cell)) (y : List ℕ) (i : ℕ) : List (ℚ × ℕ) :=
  (rows.zip y).filterMap (fun p => (p.1.getD i none).map (fun v => (v, p.2)))

/-- `fit_all_gmm_models`, parametric in the collaborator:
`fit bio_X bio_y` stands for `ParametricMM(Gaussian(), Gaussian()).fit(bio_X,
bio_y)` on a fresh model (new component distributions per biomarker).
`n_biomarkers` is `X.ncols`: row filtering keeps the column count. -/
def fit_all_gmm_models {A : Type} (fit : List ℚ → List ℕ → A)
    (X : NDMatrix) (y : List ℕ) : List A :=
  let kept := keepRows X y
  let Xf := kept.map Prod.fst
  let yf := kept.map Prod.snd
  (List.range X.ncols).map (fun i =>
    let bio := bioPairs Xf yf i
    fit (bio.map Prod.fst) (bio.map Prod.snd))

/-- The kernel-density fitting collaborator: `kfit a b bio_X bio_y ifc dirn q`
stands for `KDEMM(alpha=a, beta=b).fit(bio_X, bio_y, ifc, patholog_dirn=dirn,
outlier_controls_quantile=q)`, returning the fitted model. -/
abbrev KFit (A : Type) : Type :=
  ℚ → Option ℚ → List ℚ → List ℕ → Bool → Int → ℚ → A

/-- `patholog_dirn_array[i]`: indexing `None` raises TypeError, indexing a
list out of range raises IndexError. -/
def pdaIndex (pda : Option (List Int)) (i : ℕ) : Option Int :=
  match pda with
  | none => none
  | some l => l[i]?

/-- `fit_all_kde_models`, parametric in the collaborator `kfit`. -/
def fit_all_kde_models {A : Type} (kfit : KFit A) (X : NDMatrix) (y : List ℕ)
    (ifc : Bool) (pda : Option (List Int)) (alpha : ℚ) (beta : Option ℚ)
    (quant : ℚ) : Option (List A) :=
  let kept := keepRows X y
  let Xf := kept.map Prod.fst
  let yf := kept.map Prod.snd
  mapOpt (fun i =>
      (pdaIndex pda i).map (fun dirn =>
        let bio := bioPairs Xf yf i
        kfit alpha beta (bio.map Prod.fst) (bio.map Prod.snd) ifc dirn quant))
    (List.range X.ncols)

/-- A Python value supplied for `alphas` or `betas`: `None`, a scalar, or a
list. -/
inductive HParam : Type where
  | pnone : HParam
  | pscalar : ℚ → HParam
  | plist : List ℚ → HParam
deriving DecidableEq

/-- The list held by a hyperparameter after broadcasting (the broadcasting
steps always end on `plist`; the other cases are unreachable). -/
def HParam.vals : HParam → List ℚ
  | .plist vs => vs
  | _ => []

/-- The four broadcasting statements at the top of `fit_all_kde_models_plus`,
in source order. -/
def resolveHP (n : ℕ) (alphas betas : HParam) : List ℚ × List ℚ :=
  -- if alphas is None: alphas = 0.3
  let a1 := match alphas with | .pnone => HParam.pscalar (3/10) | p => p
  -- if type(alphas) is not list: alphas = [alphas] * n_biomarkers
  let a2 := match a1 with | .pscalar v => HParam.plist (List.replicate n v) | p => p
  -- if betas is None: betas = alphas
  let b1 := match betas with | .pnone => a2 | p => p
  -- if type(betas) is not list: betas = [betas] * n_biomarkers
  let b2 := match b1 with | .pscalar v => HParam.plist (List.replicate n v) | p => p
  (a2.vals, b2.vals)

/-- `fit_all_kde_models_plus`, parametric in the collaborator `kfit`; the loop
reads `patholog_dirn_array[i]`, then `alphas[i]` and `betas[i]` (an
out-of-range index raises IndexError). -/
def fit_all_kde_models_plus {A : Type} (kfit : KFit A) (X : NDMatrix)
    (y : List ℕ) (ifc : Bool) (pda : Option (List Int)) (alphas betas : HParam)
    (quant : ℚ) : Option (List A) :=
  let kept := keepRows X y
  let Xf := kept.map Prod.fst
  let yf := kept.map Prod.snd
  let ab := resolveHP X.ncols alphas betas
  mapOpt (fun i =>
      (pdaIndex pda i).bind (fun dirn =>
        let bio := bioPairs Xf yf i
        ab.1[i]?.bind (fun a =>
          ab.2[i]?.map (fun b =>
            kfit a (some b) (bio.map Prod.fst) (bio.map Prod.snd) ifc dirn
              quant))))
    (List.range X.ncols)

/-- Specification-side description of the biomarker-`i` training set: pair
each row's column-`i` cell with its label, keep the rows labeled 0 or 1 whose
cell is present, in original row order. -/
def trainPairs (X : NDMatrix) (y : List ℕ) (i : ℕ) : List (ℚ × ℕ) :=
  ((colOf X i).zip y).filterMap
    (fun p => if p.2 < 2 then p.1.map (fun v => (v, p.2)) else none)

/-! Helper lemmas about `mapOpt`. -/

theorem mapOpt_length {α β : Type} {f : α → Option β} :
    ∀ {l : List α} {bs : List β}, mapOpt f l = some bs → bs.length = l.length := by
  intro l
  induction l with
  | nil => intro bs h; simp [mapOpt] at h; simp [← h]
  | cons x xs ih =>
      intro bs h
      simp only [mapOpt, Option.bind_eq_some, Option.map_eq_some'] at h
      obtain ⟨b, _, bs', hbs', rfl⟩ := h
      simp [ih hbs']

theorem mapOpt_getElem? {α β : Type} {f : α → Option β} :
    ∀ {l : List α} {bs : List β}, mapOpt f l = some bs →
      ∀ (i : ℕ) (a : α), l[i]? = some a → bs[i]? = f a := by
  intro l
  induction l with
  | nil => intro bs _ i a ha; simp at ha
  | cons x xs ih =>
      intro bs h i a ha
      simp only [mapOpt, Option.bind_eq_some, Option.map_eq_some'] at h
      obtain ⟨b, hb, bs', hbs', rfl⟩ := h
      match i with
      | 0 => simp at ha; subst ha; simpa using hb.symm
      | j + 1 => simp at ha ⊢; exact ih hbs' j a ha

theorem mapOpt_isSome {α β : Type} {f : α → Option β} :
    ∀ {l : List α}, (∀ a ∈ l, (f a).isSome) → ∃ bs, mapOpt f l = some bs := by
  intro l
  induction l with
  | nil => intro _; exact ⟨[], rfl⟩
  | cons x xs ih =>
      intro h
      obtain ⟨b, hb⟩ := Option.isSome_iff_exists.mp (h x (by simp))
      obtain ⟨bs, hbs⟩ := ih (fun a ha => h a (by simp [ha]))
      exact ⟨b :: bs, by simp [mapOpt, hb, hbs]⟩

theorem mapOpt_eq_none {α β : Type} {f : α → Option β} {x : α} :
    ∀ {l : List α}, x ∈ l → f x = none → mapOpt f l = none := by
  intro l
  induction l with
  | nil => intro h; simp at h
  | cons z zs ih =>
      intro hx hfx
      rcases List.mem_cons.mp hx with rfl | hx
      · simp [mapOpt, hfx]
      · cases hz : f z with
        | none => simp [mapOpt, hz]
        | some b => simp [mapOpt, hz, ih hx hfx]

theorem mapOpt_congr {α β : Type} {f g : α → Option β} :
    ∀ {l : List α}, (∀ a ∈ l, f a = g a) → mapOpt f l = mapOpt g l := by
  intro l
  induction l with
  | nil => intro _; rfl
  | cons x xs ih =>
      intro h
      simp only [mapOpt, h x (by simp), ih (fun a ha => h a (by simp [ha]))]

/-! Helper lemmas about the training-row selection. -/

theorem zip_map_fst_snd {α β : Type} (l : List (α × β)) :
    (l.map Prod.fst).zip (l.map Prod.snd) = l := by
  have h := List.zip_unzip l
  rwa [List.unzip_eq_map] at h

/-- The filtered aligned arrays handed to the fit call for biomarker `i` are
exactly the rows of the original table whose label is below 2 and whose
column-`i` cell is present, in original row order. -/
theorem bioPairs_keepRows (X : NDMatrix) (y : List ℕ) (i : ℕ) :
    bioPairs ((keepRows X y).map Prod.fst) ((keepRows X y).map Prod.snd) i
      = trainPairs X y i := by
  unfold bioPairs trainPairs keepRows colOf
  rw [zip_map_fst_snd, List.filterMap_filter, List.zip_map_left,
    List.filterMap_map]
  apply List.filterMap_congr
  intro p _
  by_cases hp : p.2 < 2 <;> simp [hp, Prod.map]

/-! Helper lemmas about the entry points, parametric in the collaborators. -/

theorem fit_all_gmm_models_getElem? {A : Type} (fit : List ℚ → List ℕ → A)
    (X : NDMatrix) (y : List ℕ) {i : ℕ} (hi : i < X.ncols) :
    (fit_all_gmm_models fit X y)[i]?
      = some (fit ((trainPairs X y i).map Prod.fst)
          ((trainPairs X y i).map Prod.snd)) := by
  unfold fit_all_gmm_models
  simp only [List.getElem?_map, List.getElem?_range hi, Option.map_some',
    bioPairs_keepRows]

theorem fit_all_kde_models_success {A : Type} (kfit : KFit A) (X : NDMatrix)
    (y : List ℕ) (ifc : Bool) (dl : List Int) (alpha : ℚ) (beta : Option ℚ)
    (quant : ℚ) (hdl : X.ncols ≤ dl.length) :
    ∃ ms, fit_all_kde_models kfit X y ifc (some dl) alpha beta quant = some ms
      ∧ ∀ i : ℕ, i < X.ncols →
          ms[i]? = some (kfit alpha beta ((trainPairs X y i).map Prod.fst)
            ((trainPairs X y i).map Prod.snd) ifc (dl.getD i 0) quant) := by
  unfold fit_all_kde_models
  have hbody : ∀ i ∈ List.range X.ncols,
      ((pdaIndex (some dl) i).map (fun dirn =>
        kfit alpha beta
          ((bioPairs ((keepRows X y).map Prod.fst)
              ((keepRows X y).map Prod.snd) i).map Prod.fst)
          ((bioPairs ((keepRows X y).map Prod.fst)
              ((keepRows X y).map Prod.snd) i).map Prod.snd) ifc dirn
          quant)).isSome := by
    intro i hmem
    have hi : i < dl.length := lt_of_lt_of_le (List.mem_range.mp hmem) hdl
    simp [pdaIndex, List.getElem?_eq_getElem hi]
  obtain ⟨ms, hms⟩ := mapOpt_isSome hbody
  refine ⟨ms, hms, ?_⟩
  intro i hi
  have hdli : i < dl.length := lt_of_lt_of_le hi hdl
  have := mapOpt_getElem? hms i i (List.getElem?_range hi)
  rw [this]
  simp [pdaIndex, List.getElem?_eq_getElem hdli, bioPairs_keepRows,
    List.getD_eq_getElem?_getD, List.getElem?_eq_getElem hdli]

theorem fit_all_kde_models_plus_success {A : Type} (kfit : KFit A)
    (X : NDMatrix) (y : List ℕ) (ifc : Bool) (dl : List Int)
    (alphas betas : HParam) (quant : ℚ) (hdl : X.ncols ≤ dl.length)
    (ha : X.ncols ≤ (resolveHP X.ncols alphas betas).1.length)
    (hb : X.ncols ≤ (resolveHP X.ncols alphas betas).2.length) :
    ∃ ms, fit_all_kde_models_plus kfit X y ifc (some dl) alphas betas quant
        = some ms
      ∧ ms.length = X.ncols
      ∧ ∀ i : ℕ, i < X.ncols →
          ms[i]? = some (kfit ((resolveHP X.ncols alphas betas).1.getD i 0)
            (some ((resolveHP X.ncols alphas betas).2.getD i 0))
            ((trainPairs X y i).map Prod.fst)
            ((trainPairs X y i).map Prod.snd) ifc (dl.getD i 0) quant) := by
  unfold fit_all_kde_models_plus
  have hbody : ∀ i ∈ List.range X.ncols,
      ((pdaIndex (some dl) i).bind (fun dirn =>
        ((resolveHP X.ncols alphas betas).1[i]?.bind (fun a =>
          ((resolveHP X.ncols alphas betas).2[i]?.map (fun b =>
            kfit a (some b)
              ((bioPairs ((keepRows X y).map Prod.fst)
                  ((keepRows X y).map Prod.snd) i).map Prod.fst)
              ((bioPairs ((keepRows X y).map Prod.fst)
                  ((keepRows X y).map Prod.snd) i).map Prod.snd) ifc dirn
              quant)))))).isSome := by
    intro i hmem
    have hi := List.mem_range.mp hmem
    have h1 : i < dl.length := lt_of_lt_of_le hi hdl
    have h2 : i < (resolveHP X.ncols alphas betas).1.length := lt_of_lt_of_le hi ha
    have h3 : i < (resolveHP X.ncols alphas betas).2.length := lt_of_lt_of_le hi hb
    simp [pdaIndex, List.getElem?_eq_getElem h1, List.getElem?_eq_getElem h2,
      List.getElem?_eq_getElem h3]
  obtain ⟨ms, hms⟩ := mapOpt_isSome hbody
  refine ⟨ms, hms, by simpa [List.length_range] using mapOpt_length hms, ?_⟩
  intro i hi
  have h1 : i < dl.length := lt_of_lt_of_le hi hdl
  have h2 : i < (resolveHP X.ncols alphas betas).1.length := lt_of_lt_of_le hi ha
  have h3 : i < (resolveHP X.ncols alphas betas).2.length := lt_of_lt_of_le hi hb
  have := mapOpt_getElem? hms i i (List.getElem?_range hi)
  rw [this]
  simp [pdaIndex, List.getElem?_eq_getElem h1, List.getElem?_eq_getElem h2,
    List.getElem?_eq_getElem h3, bioPairs_keepRows, List.getD_eq_getElem?_getD]

theorem fit_all_kde_models_pda_none {A : Type} (kfit : KFit A) (X : NDMatrix)
    (y : List ℕ) (ifc : Bool) (alpha : ℚ) (beta : Option ℚ) (quant : ℚ)
    (h0 : 0 < X.ncols) :
    fit_all_kde_models kfit X y ifc none alpha beta quant = none := by
  unfold fit_all_kde_models
  exact mapOpt_eq_none (List.mem_range.mpr h0) (by simp [pdaIndex])

theorem fit_all_kde_models_plus_pda_none {A : Type} (kfit : KFit A)
    (X : NDMatrix) (y : List ℕ) (ifc : Bool) (alphas betas : HParam)
    (quant : ℚ) (h0 : 0 < X.ncols) :
    fit_all_kde_models_plus kfit X y ifc none alphas betas quant = none := by
  unfold fit_all_kde_models_plus
  exact mapOpt_eq_none (List.mem_range.mpr h0) (by simp [pdaIndex])

/-! Helper lemmas about the probability-matrix assembler. -/

/-- Scattering the model's outputs on the non-missing values back over the
column is the same as evaluating the model cell by cell, with the 0.5
fallback at missing cells. -/
theorem colProbs_eq_map (f : ℚ → ℚ) :
    ∀ col : List Cell,
      colProbs f col
        = col.map (fun c => match c with | some v => f v | none => 1/2) := by
  intro col
  induction col with
  | nil => rfl
  | cons c cs ih =>
      cases c with
      | none =>
          simp only [colProbs, List.filterMap_cons] at ih ⊢
          simpa [scatter] using ih
      | some v =>
          simp only [colProbs, List.filterMap_cons] at ih ⊢
          simpa [scatter] using ih

theorem getD_map_range {β : Type} (f : ℕ → β) {n i : ℕ} (h : i < n) (d : β) :
    ((List.range n).map f).getD i d = f i := by
  rw [List.getD_eq_getElem?_getD, List.getElem?_map, List.getElem?_range h]
  rfl

/-- Characterisation of one entry of a successfully assembled tensor. -/
theorem get_prob_mat_entry (X : NDMatrix) (models : List (ℚ → ℚ))
    {t : List (List (ℚ × ℚ))} (ht : get_prob_mat X models = some t)
    {p b : ℕ} (hp : p < X.rows.length) (hb : b < X.ncols) :
    ∃ f, models[b]? = some f
      ∧ (t.getD p []).getD b (0, 0)
          = ((colProbs f (colOf X b)).getD p 0,
             1 - (colProbs f (colOf X b)).getD p 0) := by
  unfold get_prob_mat at ht
  rw [Option.map_eq_some'] at ht
  obtain ⟨cols0, hcols0, rfl⟩ := ht
  have hcb : cols0[b]? = models[b]?.map (fun f => colProbs f (colOf X b)) :=
    mapOpt_getElem? hcols0 b b (List.getElem?_range hb)
  have hblt : b < cols0.length := by
    rw [mapOpt_length hcols0, List.length_range]; exact hb
  cases hm : models[b]? with
  | none =>
      rw [hm, Option.map_none'] at hcb
      rw [List.getElem?_eq_none_iff] at hcb
      omega
  | some f =>
      rw [hm, Option.map_some'] at hcb
      refine ⟨f, rfl, ?_⟩
      rw [getD_map_range _ hp, getD_map_range _ hb]
      have hcd : cols0.getD b [] = colProbs f (colOf X b) := by
        rw [List.getD_eq_getElem?_getD, hcb]; rfl
      simp only [hcd]

/-! The verified claims. -/

/-- C1: in every probability tensor produced by the assembler, for every
patient `p` and biomarker `b` the two slots are exact complements: slot 0
plus slot 1 equals 1, slot 1 being set by construction to 1 minus slot 0
rather than independently estimated. -/
theorem prob_mat_slots_complement (X : NDMatrix) (models : List (ℚ → ℚ))
    {t : List (List (ℚ × ℚ))} (ht : get_prob_mat X models = some t)
    {p b : ℕ} (hp : p < X.rows.length) (hb : b < X.ncols) :
    ((t.getD p []).getD b (0, 0)).1 + ((t.getD p []).getD b (0, 0)).2 = 1 := by
  obtain ⟨f, _, he⟩ := get_prob_mat_entry X models ht hp hb
  rw [he]
  simp

/-- C1 witness: a concrete 1 x 1 table with a present measurement. -/
theorem prob_mat_slots_complement_witness :
    (([[((1:ℚ)/9, (8:ℚ)/9)]].getD 0 []).getD 0 (0, 0)).1
      + (([[((1:ℚ)/9, (8:ℚ)/9)]].getD 0 []).getD 0 (0, 0)).2 = 1 :=
  @prob_mat_slots_complement ⟨1, [[some (1/3)]]⟩ [fun v => v * v]
    [[((1:ℚ)/9, (8:ℚ)/9)]]
    (by norm_num [get_prob_mat, mapOpt, colProbs, scatter, colOf,
      List.range_succ])
    0 0 (by simp) (by norm_num)

/-- C2: a missing measurement yields exactly (0.5, 0.5) in the assembled
tensor, whatever the fitted model for that biomarker would predict. -/
theorem prob_mat_missing_half (X : NDMatrix) (models : List (ℚ → ℚ))
    {t : List (List (ℚ × ℚ))} (ht : get_prob_mat X models = some t)
    {p b : ℕ} (hp : p < X.rows.length) (hb : b < X.ncols)
    (hmiss : cellAt X p b = none) :
    (t.getD p []).getD b (0, 0) = (1/2, 1/2) := by
  obtain ⟨f, _, he⟩ := get_prob_mat_entry X models ht hp hb
  rw [he]
  have hrow : X.rows[p]? = some (X.rows.getD p []) := by
    rw [List.getD_eq_getElem?_getD, List.getElem?_eq_getElem hp]
    rfl
  have hs0 : (colProbs f (colOf X b)).getD p 0 = 1/2 := by
    unfold cellAt at hmiss
    rw [colProbs_eq_map, colOf, List.map_map, List.getD_eq_getElem?_getD,
      List.getElem?_map, hrow, Option.map_some', Option.getD_some]
    simp only [Function.comp]
    rw [hmiss]
  rw [hs0]
  norm_num

/-- C2 witness: a concrete 1 x 1 table whose only cell is missing. -/
theorem prob_mat_missing_half_witness :
    ([[((1:ℚ)/2, (1:ℚ)/2)]].getD 0 []).getD 0 (0, 0) = (1/2, 1/2) :=
  @prob_mat_missing_half ⟨1, [[none]]⟩ [fun v => v] [[((1:ℚ)/2, (1:ℚ)/2)]]
    (by norm_num [get_prob_mat, mapOpt, colProbs, scatter, colOf,
      List.range_succ])
    0 0 (by simp) (by norm_num) (by simp [cellAt])

/-- C6: for every patient whose column-`b` measurement is present, slot 0 of
the assembled tensor is exactly the fitted model's probability at that
measurement; moreover the column's slot-0 values arise by scattering the
probability function mapped over precisely the non-missing values of column
`b` in original row order. -/
theorem prob_mat_present_probability (X : NDMatrix) (models : List (ℚ → ℚ))
    {t : List (List (ℚ × ℚ))} (ht : get_prob_mat X models = some t)
    {b : ℕ} (hb : b < X.ncols) {f : ℚ → ℚ} (hf : models[b]? = some f) :
    (∀ p, p < X.rows.length → ∀ v : ℚ, cellAt X p b = some v →
        ((t.getD p []).getD b (0, 0)).1 = f v)
      ∧ colProbs f (colOf X b)
          = scatter (colOf X b) (((colOf X b).filterMap id).map f) (1/2) := by
  refine ⟨?_, rfl⟩
  intro p hp v hv
  obtain ⟨f', hf', he⟩ := get_prob_mat_entry X models ht hp hb
  rw [hf] at hf'
  obtain rfl : f = f' := Option.some.inj hf'
  rw [he]
  have hrow : X.rows[p]? = some (X.rows.getD p []) := by
    rw [List.getD_eq_getElem?_getD, List.getElem?_eq_getElem hp]
    rfl
  have hs0 : (colProbs f (colOf X b)).getD p 0 = f v := by
    unfold cellAt at hv
    rw [colProbs_eq_map, colOf, List.map_map, List.getD_eq_getElem?_getD,
      List.getElem?_map, hrow, Option.map_some', Option.getD_some]
    simp only [Function.comp]
    rw [hv]
  rw [← hs0]

/-- C3: every fitting entry point trains biomarker `i` exactly on the rows
whose label is 0 or 1 and whose column-`i` measurement is present, with the
measurement and label arrays aligned row-for-row in original row order
(`trainPairs`). -/
theorem fit_entry_points_training_rows {A B C : Type}
    (fit : List ℚ → List ℕ → A) (kfit : KFit B) (kfitp : KFit C)
    (X : NDMatrix) (y : List ℕ) (ifc ifc2 : Bool) (dl dl2 : List Int)
    (alpha : ℚ) (beta : Option ℚ) (quant quant2 : ℚ) (alphas betas : HParam)
    (i : ℕ) (hi : i < X.ncols) (hdl : X.ncols ≤ dl.length)
    (hdl2 : X.ncols ≤ dl2.length)
    (ha : X.ncols ≤ (resolveHP X.ncols alphas betas).1.length)
    (hb : X.ncols ≤ (resolveHP X.ncols alphas betas).2.length) :
    (fit_all_gmm_models fit X y)[i]?
        = some (fit ((trainPairs X y i).map Prod.fst)
            ((trainPairs X y i).map Prod.snd))
      ∧ (∃ ms, fit_all_kde_models kfit X y ifc (some dl) alpha beta quant
            = some ms
          ∧ ms[i]? = some (kfit alpha beta ((trainPairs X y i).map Prod.fst)
              ((trainPairs X y i).map Prod.snd) ifc (dl.getD i 0) quant))
      ∧ (∃ ms, fit_all_kde_models_plus kfitp X y ifc2 (some dl2) alphas betas
            quant2 = some ms
          ∧ ms[i]? = some (kfitp ((resolveHP X.ncols alphas betas).1.getD i 0)
              (some ((resolveHP X.ncols alphas betas).2.getD i 0))
              ((trainPairs X y i).map Prod.fst)
              ((trainPairs X y i).map Prod.snd) ifc2 (dl2.getD i 0)
              quant2)) := by
  refine ⟨fit_all_gmm_models_getElem? fit X y hi, ?_, ?_⟩
  · obtain ⟨ms, hms, hgot⟩ :=
      fit_all_kde_models_success kfit X y ifc dl alpha beta quant hdl
    exact ⟨ms, hms, hgot i hi⟩
  · obtain ⟨ms, hms, _, hgot⟩ :=
      fit_all_kde_models_plus_success kfitp X y ifc2 dl2 alphas betas quant2
        hdl2 ha hb
    exact ⟨ms, hms, hgot i hi⟩

/-- C3 witness: three patients, labels 0, 2, 1; the label-2 row and the
missing cell are dropped, measurements and labels stay aligned. -/
theorem fit_entry_points_training_rows_witness :
    (fit_all_gmm_models (fun xs ys => (xs, ys))
        ⟨2, [[some 1, none], [some 2, some 3], [some 4, some 5]]⟩ [0, 2, 1])[0]?
      = some ([(1 : ℚ), 4], [(0 : ℕ), 1]) := by
  have h := (fit_entry_points_training_rows (fun xs ys => (xs, ys))
    (fun a b xs ys c d q => (a, b, xs, ys, c, d, q))
    (fun a b xs ys c d q => (a, b, xs, ys, c, d, q))
    ⟨2, [[some 1, none], [some 2, some 3], [some 4, some 5]]⟩ [0, 2, 1]
    false false [1, -1] [1, -1] (3/10) none (9/10) (9/10) .pnone .pnone
    0 (by norm_num) (by simp) (by simp)
    (by simp [resolveHP, HParam.vals]) (by simp [resolveHP, HParam.vals])).1
  simpa [trainPairs, colOf] using h

/-- C4: hyperparameter resolution in the convenience entry point: `None`
alphas become the scalar 0.3 replicated over the biomarkers, a scalar is
replicated, `None` betas adopt the already-resolved alphas sequence;
concretely alphas=0.5 and betas=None over 3 biomarkers give [0.5, 0.5, 0.5]
twice; and model `i` is constructed with `alphas[i]` and `betas[i]`. -/
theorem plus_hyperparam_broadcast {A : Type} (kfit : KFit A) (X : NDMatrix)
    (y : List ℕ) (ifc : Bool) (dl : List Int) (quant : ℚ) (n : ℕ)
    (alphas betas : HParam)
    (i : ℕ) (hi : i < X.ncols) (hdl : X.ncols ≤ dl.length)
    (ha : X.ncols ≤ (resolveHP X.ncols alphas betas).1.length)
    (hb : X.ncols ≤ (resolveHP X.ncols alphas betas).2.length) :
    resolveHP n .pnone .pnone
        = (List.replicate n (3/10), List.replicate n (3/10))
      ∧ (∀ v : ℚ, resolveHP n (.pscalar v) .pnone
          = (List.replicate n v, List.replicate n v))
      ∧ (∀ p : HParam, (resolveHP n p .pnone).2 = (resolveHP n p .pnone).1)
      ∧ resolveHP 3 (.pscalar (1/2)) .pnone
          = ([1/2, 1/2, 1/2], [1/2, 1/2, 1/2])
      ∧ (∃ ms, fit_all_kde_models_plus kfit X y ifc (some dl) alphas betas
            quant = some ms
          ∧ ms[i]? = some (kfit ((resolveHP X.ncols alphas betas).1.getD i 0)
              (some ((resolveHP X.ncols alphas betas).2.getD i 0))
              ((trainPairs X y i).map Prod.fst)
              ((trainPairs X y i).map Prod.snd) ifc (dl.getD i 0)
              quant)) := by
  refine ⟨rfl, fun v => rfl, ?_, rfl, ?_⟩
  · intro p; cases p <;> rfl
  · obtain ⟨ms, hms, _, hgot⟩ :=
      fit_all_kde_models_plus_success kfit X y ifc dl alphas betas quant hdl
        ha hb
    exact ⟨ms, hms, hgot i hi⟩

/-- C4 witness: the concrete broadcast [0.5, 0.5, 0.5] of scenario 4. -/
theorem plus_hyperparam_broadcast_witness :
    resolveHP 3 (.pscalar (1/2)) .pnone
      = ([1/2, 1/2, 1/2], [1/2, 1/2, 1/2]) :=
  (plus_hyperparam_broadcast (fun a b xs ys c d q => (a, b, xs, ys, c, d, q))
    ⟨1, [[some 1]]⟩ [0] false [1] (9/10) 3 (.pscalar (1/2)) .pnone
    0 (by norm_num) (by simp)
    (by simp [resolveHP, HParam.vals])
    (by simp [resolveHP, HParam.vals])).2.2.2.1

/-- C5 counterexample: with one biomarker and a two-entry alphas list, the
convenience entry point succeeds instead of surfacing the length mismatch:
the extra entry is silently ignored (the sequence is truncated). -/
theorem plus_overlong_list_ignored :
    fit_all_kde_models_plus (fun a b xs ys c d q => (a, b, xs, ys, c, d, q))
        ⟨1, [[some 1]]⟩ [0] false (some [1]) (.plist [1/2, 7/10]) .pnone (9/10)
      = some [((1:ℚ)/2, some ((1:ℚ)/2), [(1:ℚ)], [(0:ℕ)], false, (1:ℤ),
          (9:ℚ)/10)] := rfl

/-- C5 amended: a per-biomarker list shorter than the number of biomarkers
makes the entry point fail (an index error once the loop reaches the first
out-of-range biomarker), while any resolved sequences covering all
biomarkers, including longer lists, are accepted: exactly `ncols` models are
built, model `i` consuming entry `i`, any extra entries being ignored. -/
theorem plus_length_mismatch {A : Type} (kfit : KFit A) (X : NDMatrix)
    (y : List ℕ) (ifc : Bool) (pda : Option (List Int)) (betas : HParam)
    (quant : ℚ) (vs : List ℚ) (dl : List Int)
    (hshort : vs.length < X.ncols)
    (alphas2 betas2 : HParam) (hdl : X.ncols ≤ dl.length)
    (ha : X.ncols ≤ (resolveHP X.ncols alphas2 betas2).1.length)
    (hb : X.ncols ≤ (resolveHP X.ncols alphas2 betas2).2.length) :
    fit_all_kde_models_plus kfit X y ifc pda (.plist vs) betas quant = none
      ∧ (∃ ms, fit_all_kde_models_plus kfit X y ifc (some dl) alphas2 betas2
            quant = some ms
          ∧ ms.length = X.ncols
          ∧ ∀ i : ℕ, i < X.ncols → ms[i]?
              = some (kfit ((resolveHP X.ncols alphas2 betas2).1.getD i 0)
                  (some ((resolveHP X.ncols alphas2 betas2).2.getD i 0))
                  ((trainPairs X y i).map Prod.fst)
                  ((trainPairs X y i).map Prod.snd) ifc (dl.getD i 0)
                  quant)) := by
  constructor
  · unfold fit_all_kde_models_plus
    refine mapOpt_eq_none (List.mem_range.mpr hshort) ?_
    have h1 : (resolveHP X.ncols (HParam.plist vs) betas).1 = vs := rfl
    cases pda with
    | none => simp [pdaIndex]
    | some l =>
        cases hl : l[vs.length]? with
        | none => simp [pdaIndex, hl]
        | some d =>
            simp [pdaIndex, hl, h1, List.getElem?_eq_none_iff.mpr le_rfl]
  · exact fit_all_kde_models_plus_success kfit X y ifc dl alphas2 betas2 quant
      hdl ha hb

/-- C5 amended witness: an empty alphas list over one biomarker fails. -/
theorem plus_length_mismatch_witness :
    fit_all_kde_models_plus (fun a b xs ys c d q => (a, b, xs, ys, c, d, q))
        ⟨1, [[some 1]]⟩ [0] false (some [1]) (.plist []) .pnone (9/10)
      = none :=
  (plus_length_mismatch (fun a b xs ys c d q => (a, b, xs, ys, c, d, q))
    ⟨1, [[some 1]]⟩ [0] false (some [1]) .pnone (9/10) [] [1] (by norm_num)
    .pnone .pnone (by simp)
    (by simp [resolveHP, HParam.vals])
    (by simp [resolveHP, HParam.vals])).1

/-- C7: the convenience entry point applied to scalar alphas and betas is
exactly the kernel-density entry point with those scalars: broadcasting a
scalar over the biomarkers and indexing it back per biomarker changes
nothing. -/
theorem plus_refines_kde_on_scalars {A : Type} (kfit : KFit A) (X : NDMatrix)
    (y : List ℕ) (ifc : Bool) (pda : Option (List Int)) (a b quant : ℚ) :
    fit_all_kde_models_plus kfit X y ifc pda (.pscalar a) (.pscalar b) quant
      = fit_all_kde_models kfit X y ifc pda a (some b) quant := by
  unfold fit_all_kde_models_plus fit_all_kde_models
  apply mapOpt_congr
  intro i hmem
  have hi := List.mem_range.mp hmem
  have hga : (resolveHP X.ncols (HParam.pscalar a) (HParam.pscalar b)).1[i]?
      = some a := by
    have h1 : (resolveHP X.ncols (HParam.pscalar a) (HParam.pscalar b)).1
        = List.replicate X.ncols a := rfl
    rw [h1, List.getElem?_replicate]
    simp [hi]
  have hgb : (resolveHP X.ncols (HParam.pscalar a) (HParam.pscalar b)).2[i]?
      = some b := by
    have h2 : (resolveHP X.ncols (HParam.pscalar a) (HParam.pscalar b)).2
        = List.replicate X.ncols b := rfl
    rw [h2, List.getElem?_replicate]
    simp [hi]
  cases hpd : pdaIndex pda i with
  | none => simp [hpd]
  | some d => simp [hpd, hga, hgb]

/-- C8 counterexample: a biomarker whose only measurement is missing makes
the orchestrator call the fit operation with an empty measurement array (the
fit collaborator here records its arguments, and receives two empty
arrays). -/
theorem gmm_fit_called_with_empty :
    fit_all_gmm_models (fun xs ys => (xs, ys)) ⟨1, [[none]]⟩ [0]
      = [(([] : List ℚ), ([] : List ℕ))] := by
  norm_num [fit_all_gmm_models, keepRows, bioPairs, List.range_succ]

/-- C8 amended: every fit call receives exactly the non-missing two-class
measurements of its biomarker; whenever each biomarker column has at least
one present measurement among rows labeled 0 or 1, no fit call receives an
empty measurement array. -/
theorem fit_nonempty_measurements {A B : Type}
    (fit : List ℚ → List ℕ → A) (kfit : KFit B) (X : NDMatrix) (y : List ℕ)
    (ifc : Bool) (dl : List Int) (alpha : ℚ) (beta : Option ℚ) (quant : ℚ)
    (hne : ∀ j, j < X.ncols → trainPairs X y j ≠ [])
    (i : ℕ) (hi : i < X.ncols) (hdl : X.ncols ≤ dl.length) :
    ((trainPairs X y i).map Prod.fst ≠ []
        ∧ (fit_all_gmm_models fit X y)[i]?
            = some (fit ((trainPairs X y i).map Prod.fst)
                ((trainPairs X y i).map Prod.snd)))
      ∧ (∃ ms, fit_all_kde_models kfit X y ifc (some dl) alpha beta quant
            = some ms
          ∧ ms[i]? = some (kfit alpha beta ((trainPairs X y i).map Prod.fst)
              ((trainPairs X y i).map Prod.snd) ifc (dl.getD i 0) quant)) := by
  have hne' : (trainPairs X y i).map Prod.fst ≠ [] := by
    intro h
    exact hne i hi (List.map_eq_nil_iff.mp h)
  refine ⟨⟨hne', fit_all_gmm_models_getElem? fit X y hi⟩, ?_⟩
  obtain ⟨ms, hms, hgot⟩ :=
    fit_all_kde_models_success kfit X y ifc dl alpha beta quant hdl
  exact ⟨ms, hms, hgot i hi⟩

/-- C8 amended witness: one present measurement, so the fit argument is
nonempty. -/
theorem fit_nonempty_measurements_witness :
    (trainPairs ⟨1, [[some 2]]⟩ [1] 0).map Prod.fst ≠ [] :=
  (fit_nonempty_measurements (fun xs ys => (xs, ys))
    (fun a b xs ys c d q => (a, b, xs, ys, c, d, q)) ⟨1, [[some 2]]⟩ [1]
    false [1] (3/10) none (9/10)
    (by
      intro j hj
      rw [Nat.lt_one_iff] at hj
      subst hj
      simp [trainPairs, colOf])
    0 (by norm_num) (by simp)).1.1

/-- C10: with the default value None of patholog_dirn_array, both
kernel-density entry points fail on every table with at least one biomarker
column, because the loop unconditionally indexes the array before fitting;
the default of this optional parameter is unusable. -/
theorem kde_default_dirn_array_fails {A B : Type} (kfit : KFit A)
    (kfitp : KFit B) (X : NDMatrix) (y : List ℕ) (ifc ifc2 : Bool) (alpha : ℚ)
    (beta : Option ℚ) (alphas betas : HParam) (quant quant2 : ℚ)
    (h0 : 0 < X.ncols) :
    fit_all_kde_models kfit X y ifc none alpha beta quant = none
      ∧ fit_all_kde_models_plus kfitp X y ifc2 none alphas betas quant2
          = none :=
  ⟨fit_all_kde_models_pda_none kfit X y ifc alpha beta quant h0,
   fit_all_kde_models_plus_pda_none kfitp X y ifc2 alphas betas quant2 h0⟩

/-- C10 witness: a 1 x 1 table with the defaults. -/
theorem kde_default_dirn_array_fails_witness :
    fit_all_kde_models (fun a b xs ys c d q => (a, b, xs, ys, c, d, q))
      ⟨1, [[some 1]]⟩ [0] false none (3/10) none (9/10) = none :=
  (kde_default_dirn_array_fails
    (fun a b xs ys c d q => (a, b, xs, ys, c, d, q))
    (fun a b xs ys c d q => (a, b, xs, ys, c, d, q))
    ⟨1, [[some 1]]⟩ [0] false false (3/10) none .pnone .pnone (9/10) (9/10)
    (by norm_num)).1

/-- C6 witness: a concrete 1 x 1 table with the value 2 and the model
adding 1. -/
theorem prob_mat_present_probability_witness :
    (([[((3:ℚ), (-2:ℚ))]].getD 0 []).getD 0 (0, 0)).1 = (fun v : ℚ => v + 1) 2 :=
  (@prob_mat_present_probability ⟨1, [[some 2]]⟩ [fun v => v + 1]
      [[((3:ℚ), (-2:ℚ))]]
      (by norm_num [get_prob_mat, mapOpt, colProbs, scatter, colOf,
        List.range_succ])
      0 (by norm_num) (fun v => v + 1) rfl).1 0 (by simp) 2 (by simp [cellAt])

end KdeEbm
